import Mathlib

/-!
# sample_app/auth.go

A shallow embedding of package `auth` (`User`, `AuthService`, `NewAuthService`,
`HashPassword`, `Authenticate`) together with the two standard-library functions it
calls, `crypto/sha256.Sum256` and `encoding/hex.EncodeToString`.

Conventions of the embedding:

* a Go `string` is an arbitrary sequence of bytes, so it is a `List Byte`; `str` writes a
  string literal (Go source text is UTF-8);
* a `*User` is `nil` or points to a record.  No function of the package writes through a
  pointer, so a pointer is represented by the record it points to: `Option User`;
* a Go map is `nil` or a finite map with unique keys: `Option (AList _)`.  Reading a
  `nil` map is legal in Go and finds nothing;
* `Authenticate` has a pointer receiver, so it returns the service after the call next to
  its two results; the receiver is a service, that is a non-nil pointer;
* the `int` field `ID` is stored and returned, never computed with, so it is an `Int`;
* `uint32` and `uint64` arithmetic is arithmetic on `Nat` reduced modulo `2^32`, `2^64`.
-/

set_option linter.unusedVariables false

namespace Auth

/-! ## Strings -/

/-- One byte. -/
abbrev Byte := Fin 256

/-- A Go string: a read-only sequence of bytes (not necessarily valid UTF-8). -/
abbrev GoString := List Byte

/-- Reduction of a number to a byte, the conversion `byte(x)` of Go. -/
def byte (x : Nat) : Byte := ⟨x % 256, Nat.mod_lt x (by decide)⟩

/-- UTF-8 encoding of one code point. -/
def utf8 (c : Nat) : List Nat :=
  if c < 0x80 then [c]
  else if c < 0x800 then [0xC0 + c / 64, 0x80 + c % 64]
  else if c < 0x10000 then [0xE0 + c / 4096, 0x80 + c / 64 % 64, 0x80 + c % 64]
  else [0xF0 + c / 262144, 0x80 + c / 4096 % 64, 0x80 + c / 64 % 64, 0x80 + c % 64]

/-- The Go string written by a string literal. -/
def str (s : String) : GoString :=
  s.data.flatMap (fun c => (utf8 c.toNat).map byte)

/-! ## crypto/sha256 (Go standard library) -/

/-- Round constants of SHA-256 (`_K` in `sha256block.go`), eight rounds to a row. -/
def _K : List Nat := List.flatten [
  [0x428a2f98, 0x71374491, 0xb5c0fbcf, 0xe9b5dba5, 0x3956c25b, 0x59f111f1, 0x923f82a4, 0xab1c5ed5],
  [0xd807aa98, 0x12835b01, 0x243185be, 0x550c7dc3, 0x72be5d74, 0x80deb1fe, 0x9bdc06a7, 0xc19bf174],
  [0xe49b69c1, 0xefbe4786, 0x0fc19dc6, 0x240ca1cc, 0x2de92c6f, 0x4a7484aa, 0x5cb0a9dc, 0x76f988da],
  [0x983e5152, 0xa831c66d, 0xb00327c8, 0xbf597fc7, 0xc6e00bf3, 0xd5a79147, 0x06ca6351, 0x14292967],
  [0x27b70a85, 0x2e1b2138, 0x4d2c6dfc, 0x53380d13, 0x650a7354, 0x766a0abb, 0x81c2c92e, 0x92722c85],
  [0xa2bfe8a1, 0xa81a664b, 0xc24b8b70, 0xc76c51a3, 0xd192e819, 0xd6990624, 0xf40e3585, 0x106aa070],
  [0x19a4c116, 0x1e376c08, 0x2748774c, 0x34b0bcb5, 0x391c0cb3, 0x4ed8aa4a, 0x5b9cca4f, 0x682e6ff3],
  [0x748f82ee, 0x78a5636f, 0x84c87814, 0x8cc70208, 0x90befffa, 0xa4506ceb, 0xbef9a3f7, 0xc67178f2]]

/-- Truncation to `uint32`. -/
def u32 (x : Nat) : Nat := x % 4294967296

/-- Rotation of a `uint32` to the right, `bits.RotateLeft32(x, -n)`. -/
def rotr (x n : Nat) : Nat := u32 ((x >>> n) ||| (x <<< (32 - n)))

/-- Bitwise complement of a `uint32`, `^x`. -/
def not32 (x : Nat) : Nat := x ^^^ 0xffffffff

/-- The eight chaining words `h [8]uint32` of a SHA-256 `digest`. -/
structure digest where
  h0 : Nat
  h1 : Nat
  h2 : Nat
  h3 : Nat
  h4 : Nat
  h5 : Nat
  h6 : Nat
  h7 : Nat
deriving DecidableEq

/-- Initial chaining value (`init0` to `init7`). -/
def init : digest :=
  ⟨0x6a09e667, 0xbb67ae85, 0x3c6ef372, 0xa54ff53a, 0x510e527f, 0x9b05688c, 0x1f83d9ab, 0x5be0cd19⟩

/-- Big-endian reading of a block as 32-bit words: `w[i]` for `i < 16`. -/
def beWords : List Nat → List Nat
  | b0 :: b1 :: b2 :: b3 :: rest => (b0 <<< 24 ||| b1 <<< 16 ||| b2 <<< 8 ||| b3) :: beWords rest
  | _ => []

/-- Message schedule: `extend n w` appends the next `n` words `w[i]`, `i = len w, ...`. -/
def extend : Nat → List Nat → List Nat
  | 0, w => w
  | n + 1, w =>
    let i := w.length
    let v1 := w.getD (i - 2) 0
    let t1 := rotr v1 17 ^^^ rotr v1 19 ^^^ (v1 >>> 10)
    let v2 := w.getD (i - 15) 0
    let t2 := rotr v2 7 ^^^ rotr v2 18 ^^^ (v2 >>> 3)
    extend n (w ++ [u32 (t1 + w.getD (i - 7) 0 + t2 + w.getD (i - 16) 0)])

/-- One of the 64 rounds, on the working variables `a .. h`, with `kw = (_K[i], w[i])`. -/
def round (s : digest) (kw : Nat × Nat) : digest :=
  match s with
  | ⟨a, b, c, d, e, f, g, h⟩ =>
    let t1 := u32 (h + (rotr e 6 ^^^ rotr e 11 ^^^ rotr e 25) + ((e &&& f) ^^^ (not32 e &&& g))
      + kw.1 + kw.2)
    let t2 := u32 ((rotr a 2 ^^^ rotr a 13 ^^^ rotr a 22) + ((a &&& b) ^^^ (a &&& c) ^^^ (b &&& c)))
    ⟨u32 (t1 + t2), a, b, c, u32 (d + t1), e, f, g⟩

/-- Compression of one 64-byte block (`blockGeneric`, one iteration). -/
def block (dig : digest) (p : List Nat) : digest :=
  let w := extend 48 (beWords p)
  let r := (_K.zip w).foldl round dig
  ⟨u32 (dig.h0 + r.h0), u32 (dig.h1 + r.h1), u32 (dig.h2 + r.h2), u32 (dig.h3 + r.h3),
   u32 (dig.h4 + r.h4), u32 (dig.h5 + r.h5), u32 (dig.h6 + r.h6), u32 (dig.h7 + r.h7)⟩

/-- Compression of the first `n` blocks of `p`. -/
def blocks : Nat → digest → List Nat → digest
  | 0, dig, _ => dig
  | n + 1, dig, p => blocks n (block dig (p.take 64)) (p.drop 64)

/-- Big-endian bytes of a `uint64` (`binary.BigEndian.PutUint64`). -/
def putUint64 (x : Nat) : List Nat :=
  [x >>> 56 % 256, x >>> 48 % 256, x >>> 40 % 256, x >>> 32 % 256,
   x >>> 24 % 256, x >>> 16 % 256, x >>> 8 % 256, x % 256]

/-- Padding written by `checkSum` after `len` bytes of data: the byte `0x80`, zeros up to
56 modulo 64, and the length in bits as a `uint64`. -/
def padding (len : Nat) : List Nat :=
  let t := if len % 64 < 56 then 56 - len % 64 else 64 + 56 - len % 64
  0x80 :: List.replicate (t - 1) 0 ++ putUint64 ((len <<< 3) % 18446744073709551616)

/-- Big-endian bytes of a `uint32` (`binary.BigEndian.PutUint32`). -/
def putUint32 (x : Nat) : List Byte := [byte (x >>> 24), byte (x >>> 16), byte (x >>> 8), byte x]

/-- The function `sha256.Sum256`: the SHA-256 checksum of the data, a `[32]byte`. -/
def Sum256 (data : List Byte) : List Byte :=
  let p := data.map Fin.val ++ padding data.length
  let d := blocks (p.length / 64) init p
  putUint32 d.h0 ++ putUint32 d.h1 ++ putUint32 d.h2 ++ putUint32 d.h3 ++
  putUint32 d.h4 ++ putUint32 d.h5 ++ putUint32 d.h6 ++ putUint32 d.h7

/-! ## encoding/hex (Go standard library) -/

/-- The constant `hextable` of `encoding/hex`. -/
def hextable : GoString := str "0123456789abcdef"

/-- The two characters `hextable[v>>4]`, `hextable[v&0x0f]` that `hex.Encode` writes for the
byte `v`.  Both indices are below 16, so the indexing never fails. -/
def encodeByte (v : Byte) : List Byte :=
  [hextable.getD (v.val >>> 4) 0, hextable.getD (v.val &&& 0x0f) 0]

/-- The function `hex.EncodeToString`. -/
def EncodeToString (src : List Byte) : GoString :=
  src.flatMap encodeByte

/-! ## package auth -/

/-- User represents an authenticated user. -/
structure User where
  ID : Int
  Username : GoString
  Email : GoString
deriving DecidableEq

/-- The type `map[string]*User`: `none` is the `nil` map. -/
abbrev UserMap := Option (AList (fun _ : GoString => Option User))

/-- AuthService handles authentication. -/
structure AuthService where
  users : UserMap

/-- NewAuthService creates a new authentication service: `users: make(map[string]*User)`. -/
def NewAuthService : AuthService :=
  { users := some ∅ }

/-- HashPassword creates a SHA256 hash of the password. -/
def HashPassword (password : GoString) : GoString :=
  let hash := Sum256 password
  EncodeToString hash

/-- The two-valued index expression `v, ok := m[key]` of Go: the stored pointer and `true`
when `key` is present, the zero value `nil` and `false` otherwise (also on a `nil` map). -/
def index (m : UserMap) (key : GoString) : Option User × Bool :=
  match m with
  | none => (none, false)
  | some entries =>
    match entries.lookup key with
    | none => (none, false)
    | some v => (v, true)

/-- Authenticate verifies user credentials.  The result is `((user, exists), s)`: the two
values returned and the service after the call. -/
def Authenticate (s : AuthService) (username password : GoString) :
    (Option User × Bool) × AuthService :=
  let (user, exists_) := index s.users username
  ((user, exists_), s)

/-- The keys of a map (none for the `nil` map). -/
def keys (m : UserMap) : List GoString :=
  match m with
  | none => []
  | some entries => entries.keys

/-- The services reachable through the exported functions of the package: `NewAuthService`
followed by any sequence of `Authenticate` calls. -/
inductive Reachable : AuthService → Prop
  | new : Reachable NewAuthService
  | call (s : AuthService) (username password : GoString) :
      Reachable s → Reachable (Authenticate s username password).2

/-! ## Auxiliary definitions for the proofs -/

/-- A lower-case hexadecimal digit: `0` to `9` or `a` to `f`. -/
def isHexDigit (c : Byte) : Prop :=
  ('0'.toNat ≤ c.val ∧ c.val ≤ '9'.toNat) ∨ ('a'.toNat ≤ c.val ∧ c.val ≤ 'f'.toNat)

instance (c : Byte) : Decidable (isHexDigit c) := by
  unfold isHexDigit; infer_instance

/-- Value of a hexadecimal digit (as `fromHexChar` of `encoding/hex`, lower case only). -/
def fromHexChar (c : Byte) : Nat :=
  if c.val < 'a'.toNat then c.val - '0'.toNat else c.val - 'a'.toNat + 10

/-- The byte written by two hexadecimal digits. -/
def decodeByte : List Byte → Byte
  | [hi, lo] => byte (fromHexChar hi <<< 4 ||| fromHexChar lo)
  | _ => 0

/-- The user record of the examples: `&User{1, "alice", "alice@example.com"}`. -/
def alice : User :=
  { ID := 1, Username := str "alice", Email := str "alice@example.com" }

/-- A service holding one user: `users = map[string]*User{"alice": &alice}`. -/
def aliceService : AuthService :=
  { users := some (AList.singleton (str "alice") (some alice)) }

/-- The lower-case hexadecimal digit of a value below 16, by its character code. -/
def hexDigit (d : Nat) : Byte :=
  byte (if d < 10 then '0'.toNat + d else 'a'.toNat + (d - 10))

/-- The two-digit lower-case hexadecimal numeral of a byte, most significant digit first. -/
def hexOfByte (v : Byte) : List Byte :=
  [hexDigit (v.val / 16), hexDigit (v.val % 16)]

/-- The service after `u` is registered with the password `old` and then registered again
with the password `new`.  The package has no registration operation, so the operation is
the parameter `Put`: any function that takes a service, a username, a user and a password
hash to a service. -/
def registerTwice (Put : AuthService → GoString → Option User → GoString → AuthService)
    (s : AuthService) (u : GoString) (usr : Option User) (old new : GoString) : AuthService :=
  Put (Put s u usr (HashPassword old)) u usr (HashPassword new)

/-! ## The standard-library functions -/

/-- The test vector `"abc"` of FIPS 180-4 for SHA-256, through `HashPassword`. -/
theorem HashPassword_abc :
    HashPassword (str "abc")
      = str "ba7816bf8f01cfea414140de5dae2223b00361a396177a9cb410ff61f20015ad" := by
  set_option maxRecDepth 100000 in decide

/-- The empty password: one block of padding only. -/
theorem HashPassword_empty :
    HashPassword []
      = str "e3b0c44298fc1c149afbf4c8996fb92427ae41e4649b934ca495991b7852b855" := by
  set_option maxRecDepth 100000 in decide

/-- The two-block test vector of FIPS 180-4 for SHA-256, through `HashPassword`. -/
theorem HashPassword_two_blocks :
    HashPassword (str "abcdbcdecdefdefgefghfghighijhijkijkljklmklmnlmnomnopnopq")
      = str "248d6a61d20638b8e5c026930c3e6039a33ce45964ff2167f6ecedd419db06c1" := by
  set_option maxRecDepth 100000 in decide

/-- A digest has 32 bytes: `Sum256` returns a `[32]byte`. -/
theorem Sum256_length (data : List Byte) : (Sum256 data).length = 32 := by
  simp [Sum256, putUint32]

theorem encodeByte_length (v : Byte) : (encodeByte v).length = 2 := rfl

/-- Decoding the two digits of a byte gives the byte back. -/
theorem decodeByte_encodeByte : ∀ v : Byte, decodeByte (encodeByte v) = v := by
  set_option maxRecDepth 1000000 in decide

theorem encodeByte_all_isHexDigit :
    ∀ v : Byte, (encodeByte v).all (fun c => decide (isHexDigit c)) = true := by
  set_option maxRecDepth 1000000 in decide

theorem encodeByte_injective {a b : Byte} (h : encodeByte a = encodeByte b) : a = b := by
  rw [← decodeByte_encodeByte a, ← decodeByte_encodeByte b, h]

theorem encodeByte_isHexDigit (v c : Byte) (h : c ∈ encodeByte v) : isHexDigit c := by
  have hall := encodeByte_all_isHexDigit v
  rw [List.all_eq_true] at hall
  exact of_decide_eq_true (hall c h)

/-- The encoding writes two characters per byte. -/
theorem EncodeToString_length (src : List Byte) :
    (EncodeToString src).length = 2 * src.length := by
  induction src with
  | nil => rfl
  | cons v vs ih =>
    simp only [EncodeToString, List.flatMap_cons, List.length_append, encodeByte_length,
      List.length_cons] at ih ⊢
    omega

/-- Every character of the encoding is a lower-case hexadecimal digit. -/
theorem EncodeToString_isHexDigit (src : List Byte) (c : Byte) (h : c ∈ EncodeToString src) :
    isHexDigit c := by
  obtain ⟨v, _, hc⟩ := List.mem_flatMap.mp h
  exact encodeByte_isHexDigit v c hc

/-- The encoding is injective, on byte sequences of any length. -/
theorem EncodeToString_injective :
    ∀ {x y : List Byte}, EncodeToString x = EncodeToString y → x = y
  | [], [], _ => rfl
  | [], b :: y, h => by
    have hlen := congrArg List.length h
    simp [EncodeToString_length] at hlen
  | a :: x, [], h => by
    have hlen := congrArg List.length h
    simp [EncodeToString_length] at hlen
  | a :: x, b :: y, h => by
    simp only [EncodeToString, List.flatMap_cons] at h
    have hl : (encodeByte a).length = (encodeByte b).length := rfl
    obtain ⟨h1, h2⟩ := List.append_inj h hl
    rw [encodeByte_injective h1, EncodeToString_injective h2]

/-- The hashes of the two passwords of the examples differ. -/
theorem wrongpass_ne_secret1 :
    HashPassword (str "wrongpass") ≠ HashPassword (str "secret1") := by
  set_option maxRecDepth 100000 in decide

/-- The hashes of the two passwords of the overwrite example differ. -/
theorem secret1_ne_secret2 :
    HashPassword (str "secret1") ≠ HashPassword (str "secret2") := by
  set_option maxRecDepth 100000 in decide

/-- The hash of the password `secret1`. -/
theorem HashPassword_secret1 :
    HashPassword (str "secret1")
      = str "5b11618c2e44027877d0cd0921ed166b9f176f50587fc91e7534dd2946db77d6" := by
  set_option maxRecDepth 100000 in decide

/-- The table lookup of `hex.Encode` writes the hexadecimal numeral of the byte. -/
theorem encodeByte_eq_hexOfByte : ∀ v : Byte, encodeByte v = hexOfByte v := by
  set_option maxRecDepth 1000000 in decide

/-! ## The map read of Authenticate -/

theorem index_nil (key : GoString) : index none key = (none, false) := rfl

theorem index_of_lookup_none {entries : AList (fun _ : GoString => Option User)}
    {key : GoString} (h : entries.lookup key = none) :
    index (some entries) key = (none, false) := by
  simp [index, h]

theorem index_of_lookup_some {entries : AList (fun _ : GoString => Option User)}
    {key : GoString} {v : Option User} (h : entries.lookup key = some v) :
    index (some entries) key = (v, true) := by
  simp [index, h]

theorem Authenticate_eq (s : AuthService) (username password : GoString) :
    Authenticate s username password = (index s.users username, s) := rfl

/-- The read finds a key exactly when it is a key of the map. -/
theorem index_found_iff (m : UserMap) (key : GoString) :
    (index m key).2 = true ↔ key ∈ keys m := by
  cases m with
  | none => simp [index, keys]
  | some entries =>
    cases h : entries.lookup key with
    | none =>
      rw [index_of_lookup_none h]
      have hk : key ∉ entries := AList.lookup_eq_none.mp h
      simpa [keys] using fun hmem => hk (AList.mem_keys.mpr hmem)
    | some v =>
      rw [index_of_lookup_some h]
      have hk : key ∈ entries := AList.lookup_isSome.mp (by simp [h])
      simpa [keys] using AList.mem_keys.mp hk

/-- A read that finds nothing returns the nil pointer. -/
theorem index_not_found (m : UserMap) (key : GoString) (h : (index m key).2 = false) :
    (index m key).1 = none := by
  cases m with
  | none => rfl
  | some entries =>
    cases hl : entries.lookup key with
    | none => rw [index_of_lookup_none hl]
    | some v => rw [index_of_lookup_some hl] at h; cases h

/-! ## Authenticate -/

/-- A service reached from `NewAuthService` by `Authenticate` calls has the empty map. -/
theorem Reachable.users_eq {s : AuthService} (h : Reachable s) : s.users = some ∅ := by
  induction h with
  | new => rfl
  | call s u p _ ih => exact ih

/-- C2: in every service state whose `users` map holds the record `usr` under the username
`u`, `Authenticate(u, p)` returns `ok = true` together with exactly the stored record, for
every password `p`, so in particular for the password the user was registered with. -/
theorem authenticate_registered (s : AuthService)
    (entries : AList (fun _ : GoString => Option User)) (u p : GoString) (usr : User)
    (hs : s.users = some entries) (hu : entries.lookup u = some (some usr)) :
    (Authenticate s u p).1 = (some usr, true) := by
  rw [Authenticate_eq, hs]
  exact index_of_lookup_some hu

/-- Witness of C2: `alice`, registered in `aliceService`, authenticates with `secret1` and
the stored record comes back, `ID`, `Username` and `Email` included. -/
theorem authenticate_registered_witness :
    (Authenticate aliceService (str "alice") (str "secret1")).1
      = (some { ID := 1, Username := str "alice", Email := str "alice@example.com" }, true) :=
  authenticate_registered aliceService (AList.singleton (str "alice") (some alice))
    (str "alice") (str "secret1") alice rfl (by decide)

/-- C3: `Authenticate` is a total function of the service state and its arguments (a map read
cannot panic, also on a `nil` map); for a username that is not a key of `users` it returns
the nil user and `ok = false`, whatever the password; and whenever it returns `ok = false`
the user it returns is nil. -/
theorem authenticate_unknown_user (s : AuthService) (u p : GoString) :
    (u ∉ keys s.users → (Authenticate s u p).1 = (none, false)) ∧
    ((Authenticate s u p).1.2 = false → (Authenticate s u p).1.1 = none) := by
  rw [Authenticate_eq]
  refine ⟨fun hu => ?_, fun hf => index_not_found s.users u hf⟩
  have hf : (index s.users u).2 = false := by
    rw [← Bool.not_eq_true]
    exact fun ht => hu ((index_found_iff s.users u).mp ht)
  exact Prod.ext (index_not_found s.users u hf) hf

/-- Witness of C3: `nonexistent` is not a key of `aliceService`, and is refused with no user;
so is the empty username with the empty password. -/
theorem authenticate_unknown_user_witness :
    (str "nonexistent" ∉ keys aliceService.users ∧
      (Authenticate aliceService (str "nonexistent") (str "anything")).1 = (none, false)) ∧
    (Authenticate aliceService [] []).1 = (none, false) :=
  ⟨⟨by decide,
    (authenticate_unknown_user aliceService (str "nonexistent") (str "anything")).1 (by decide)⟩,
   (authenticate_unknown_user aliceService [] []).1 (by decide)⟩

/-- C4: `Authenticate` never uses the password: for every service state, username and two
passwords the two calls return the same user and the same `ok` (and leave the same state),
and `ok` is true if and only if the username is a key of `users`. -/
theorem authenticate_ignores_password (s : AuthService) (u p1 p2 : GoString) :
    Authenticate s u p1 = Authenticate s u p2 ∧
    ((Authenticate s u p1).1.2 = true ↔ u ∈ keys s.users) :=
  ⟨rfl, index_found_iff s.users u⟩

/-- C7: `Authenticate` only reads the store: the service after the call is the service before
it, so `users` has the same keys mapped to the same records, whatever the call returns. -/
theorem authenticate_frame (s : AuthService) (u p : GoString) :
    (Authenticate s u p).2 = s ∧
    (Authenticate s u p).2.users = s.users ∧
    keys (Authenticate s u p).2.users = keys s.users ∧
    ∀ key, index (Authenticate s u p).2.users key = index s.users key :=
  ⟨rfl, rfl, rfl, fun _ => rfl⟩

/-- C10: `NewAuthService` returns a service whose `users` map is non-nil and empty, and every
service reached from it by `Authenticate` calls still has that map, so that every
`Authenticate(u, p)` on it returns the nil user and `ok = false`. -/
theorem reachable_service_empty (s : AuthService) (h : Reachable s) :
    NewAuthService.users = some ∅ ∧ keys NewAuthService.users = [] ∧
    s.users = some ∅ ∧ ∀ u p, (Authenticate s u p).1 = (none, false) := by
  have hs : s.users = some ∅ := by
    induction h with
    | new => rfl
    | call s u p _ ih => exact ih
  refine ⟨rfl, rfl, hs, fun u p => ?_⟩
  rw [Authenticate_eq, hs]
  exact index_of_lookup_none (AList.lookup_empty u)

/-- Witness of C10: the service reached by `NewAuthService` and one failed `Authenticate`
call refuses `alice` with the password `secret1`. -/
theorem reachable_service_empty_witness :
    Reachable (Authenticate NewAuthService (str "bob") (str "hunter2")).2 ∧
    (Authenticate (Authenticate NewAuthService (str "bob") (str "hunter2")).2
      (str "alice") (str "secret1")).1 = (none, false) :=
  ⟨Reachable.call _ _ _ Reachable.new,
   (reachable_service_empty _ (Reachable.call NewAuthService (str "bob") (str "hunter2")
      Reachable.new)).2.2.2 (str "alice") (str "secret1")⟩

/-! ## HashPassword -/

/-- C6: for every password, also the empty one, `HashPassword` is 64 characters long, two for
each of the 32 bytes of the digest, and each character is one of `0` to `9`, `a` to `f`. -/
theorem hashPassword_hex_digest (p : GoString) :
    (Sum256 p).length = 32 ∧ (HashPassword p).length = 64 ∧
    ∀ c ∈ HashPassword p, isHexDigit c := by
  refine ⟨Sum256_length p, ?_, fun c hc => EncodeToString_isHexDigit (Sum256 p) c hc⟩
  show (EncodeToString (Sum256 p)).length = 64
  rw [EncodeToString_length, Sum256_length]

/-- C9: the hexadecimal encoding is injective, so two passwords have the same `HashPassword`
if and only if they have the same SHA-256 digest; hence, if the digest does not collide on
two different passwords, their hashes differ. -/
theorem hashPassword_collisions (p1 p2 : GoString) :
    (∀ x y : List Byte, EncodeToString x = EncodeToString y → x = y) ∧
    (HashPassword p1 = HashPassword p2 ↔ Sum256 p1 = Sum256 p2) ∧
    ((Sum256 p1 = Sum256 p2 → p1 = p2) → p1 ≠ p2 → HashPassword p1 ≠ HashPassword p2) := by
  have hiff : HashPassword p1 = HashPassword p2 ↔ Sum256 p1 = Sum256 p2 :=
    ⟨fun h => EncodeToString_injective h, fun h => congrArg EncodeToString h⟩
  exact ⟨fun _ _ h => EncodeToString_injective h, hiff,
    fun hfree hne h => hne (hfree (hiff.mp h))⟩

/-- Witness of C9: the digests of `wrongpass` and `secret1` differ, and so do their hashes. -/
theorem hashPassword_collisions_witness :
    Sum256 (str "wrongpass") ≠ Sum256 (str "secret1") ∧
    str "wrongpass" ≠ str "secret1" ∧
    HashPassword (str "wrongpass") ≠ HashPassword (str "secret1") :=
  have hd : Sum256 (str "wrongpass") ≠ Sum256 (str "secret1") := by
    set_option maxRecDepth 100000 in decide
  ⟨hd, by decide,
   (hashPassword_collisions (str "wrongpass") (str "secret1")).2.2
     (fun h => absurd h hd) (by decide)⟩

end Auth
